import Mathlib

/-!
Verification of the SuperCombo candidate-generation and scoring pipeline
(netlify/functions/agent.js): a shallow embedding of `generateCombinations`,
`applyTemplate`, `scoreSingleBatch`, `scoreMultiPresetBatch`,
`processMultiResult`, `chunkArray` and the handler's ranking step, with
theorems about the pipeline's candidate deduplication, constraint
filtering, score clamping, result reconciliation, aggregation and ranking.

JavaScript strings are modelled as `List Char` (`Str`); ASCII lower-casing
stands in for `toLowerCase`. JavaScript numbers carrying scores are
modelled as rationals (`ℚ`); `parseFloat` results are `Option ℚ`, `none`
standing for `NaN` (a non-numeric or absent field). The network and
`JSON.parse` boundaries are modelled as tagged inputs (`OracleReply`):
an HTTP error response, a thrown parse error, or a parsed JSON array.
-/

namespace SuperCombo

/-- JavaScript strings, modelled as lists of characters. -/
abbrev Str := List Char

/-- A Lean string literal as a JS string value. -/
def jsStr (s : String) : Str := s.data

/-- `toLowerCase`, ASCII fragment (all strings the pipeline lower-cases are
ASCII-normalized immediately afterwards). -/
def jsToLower (s : Str) : Str := s.map Char.toLower

/-- Characters kept by the normalization regex class `[a-z0-9-]`. -/
def keepChar (c : Char) : Bool :=
  ('a' ≤ c && c ≤ 'z') || ('0' ≤ c && c ≤ '9') || c = '-'

/-- `domain.toLowerCase().replace(/[^a-z0-9-]/g, '')` (agent.js line 225). -/
def normalize (s : Str) : Str := (jsToLower s).filter keepChar

/-- `/\d/` digit test. -/
def isDigitC (c : Char) : Bool := '0' ≤ c && c ≤ '9'

/-- The consonant class `[bcdfghjklmnpqrstvwxz]` of `UGLY_CLUSTERS`. -/
def isConsC (c : Char) : Bool :=
  c ∈ ['b', 'c', 'd', 'f', 'g', 'h', 'j', 'k', 'l', 'm', 'n', 'p', 'q', 'r',
       's', 't', 'v', 'w', 'x', 'z']

/-- The vowel class `[aeiou]` of `UGLY_CLUSTERS`. -/
def isVowelC (c : Char) : Bool := c ∈ ['a', 'e', 'i', 'o', 'u']

/-- Whether four consecutive characters of the string satisfy `p`
(the regex fragments `[...]{4,}`). -/
def hasRun4 (p : Char → Bool) : Str → Bool
  | a :: b :: c :: d :: rest =>
    (p a && p b && p c && p d) || hasRun4 p (b :: c :: d :: rest)
  | _ => false

/-- Whether the string contains one of the doubled letters `xx|zz|qq|ww|vv`. -/
def hasBadDouble : Str → Bool
  | a :: b :: rest =>
    (a = b && (a = 'x' || a = 'z' || a = 'q' || a = 'w' || a = 'v')) ||
      hasBadDouble (b :: rest)
  | _ => false

/-- `UGLY_CLUSTERS = /([bcdfghjklmnpqrstvwxz]{4,})|([aeiou]{4,})|(xx|zz|qq|ww|vv)/i`
(agent.js line 81); the `/i` flag is modelled by lower-casing first. -/
def UGLY_CLUSTERS (s : Str) : Bool :=
  hasRun4 isConsC (jsToLower s) || hasRun4 isVowelC (jsToLower s) ||
    hasBadDouble (jsToLower s)

/-- `haystack.includes(needle)` on JS strings. -/
def hasOccur : Str → Str → Bool
  | [], pat => pat.isEmpty
  | a :: t, pat => pat.isPrefixOf (a :: t) || hasOccur t pat

/-- Index of the leftmost occurrence of `pat` in `s` (JS `indexOf`, as an
`Option`). -/
def firstOccurIdx : Str → Str → Option Nat
  | [], pat => if pat.isEmpty then some 0 else none
  | a :: t, pat =>
    if pat.isPrefixOf (a :: t) then some 0
    else (firstOccurIdx t pat).map (· + 1)

/-- `s.replace(pat, repl)` with a string (non-regex) pattern: JS replaces
only the leftmost occurrence, wherever it appears. -/
def jsReplaceFirst (s pat repl : Str) : Str :=
  match s with
  | [] => if pat.isEmpty then repl else []
  | a :: t =>
    if pat.isPrefixOf (a :: t) then repl ++ (a :: t).drop pat.length
    else a :: jsReplaceFirst t pat repl

/-- One `Set.add` step on the JS `Set` of serialized combos: JS sets keep
the first insertion and iterate in insertion order. -/
def jsSetAdd [DecidableEq α] (acc : List α) (a : α) : List α :=
  if a ∈ acc then acc else acc ++ [a]

/-- A JS `Set` built by inserting the list's elements in order, read back in
iteration (insertion) order. -/
def jsSetOfList [DecidableEq α] (l : List α) : List α := l.foldl jsSetAdd []

/-- `obj[k] = v` on a JS object modelled as a key-ordered association list:
assigning an existing key overwrites in place, a new key is appended. -/
def jsObjSet [DecidableEq κ] : List (κ × α) → κ → α → List (κ × α)
  | [], k, v => [(k, v)]
  | (k₀, v₀) :: rest, k, v =>
    if k₀ = k then (k, v) :: rest else (k₀, v₀) :: jsObjSet rest k v

/-- `obj[k]` on a JS object modelled as an association list. -/
def jsObjLookup [DecidableEq κ] (m : List (κ × α)) (k : κ) : Option α :=
  (m.find? (fun kv => kv.1 = k)).map (·.2)

/-- JS `x || d` for an optional number whose only falsy value here is `0`
(`constraints?.maxLen || 12`, `topK || 100`). -/
def jsOrNat (v : Option Nat) (d : Nat) : Nat :=
  match v with
  | none => d
  | some n => if n = 0 then d else n

/-- JS `x !== false` on an optional boolean (`constraints?.noHyphens !== false`). -/
def jsNeqFalse (v : Option Bool) : Bool :=
  match v with
  | some false => false
  | _ => true

/-- `chunkArray(arr, size)` (agent.js lines 502-508): contiguous slices
`arr.slice(i, i+size)` for `i = 0, size, 2*size, ...`. With `size = 0` the
JS loop never terminates; that case is modelled as no chunks and is outside
every claim, which assume a positive size. -/
def chunkArray : List α → Nat → List (List α)
  | [], _ => []
  | _ :: _, 0 => []
  | a :: l, s + 1 => (a :: l.take s) :: chunkArray (l.drop s) (s + 1)
termination_by l _ => l.length
decreasing_by
  simp only [List.length_cons, List.length_drop]
  omega

/-- The word packs `{ A = [], B = [], C = [] }` (agent.js line 205). -/
structure Packs where
  A : Option (List Str) := none
  B : Option (List Str) := none
  C : Option (List Str) := none

/-- The multipliers `{ prefixes = [], suffixes = [] }` (agent.js line 206). -/
structure Multipliers where
  prefixes : Option (List Str) := none
  suffixes : Option (List Str) := none

/-- The constraints object (agent.js lines 207-211); every field may be
absent, and the JS defaulting (`|| 12`, `!== false`, `|| []`) is applied
inside `generateCombinations`. -/
structure Constraints where
  maxLen : Option Nat := none
  noHyphens : Option Bool := none
  noNumbers : Option Bool := none
  banned : Option (List Str) := none
  avoidUglyClusters : Option Bool := none

/-- A raw or filtered candidate `{ domain, template, sources }`; the JS code
serializes these to JSON for `Set` membership, and two combos serialize
equally exactly when the three fields agree. -/
structure Combo where
  domain : Str
  template : String
  sources : Str
deriving DecidableEq

/-- A candidate surviving the filter has the same shape (with `domain`
replaced by its normalization). -/
abbrev Candidate := Combo

/-- `applyTemplate(template, A, B, C, prefixes, suffixes)` (agent.js lines
248-285): nested loops in source order, unknown template ids produce no
candidates. -/
def applyTemplate (template : String) (A B C prefixes suffixes : List Str) :
    List Combo :=
  match template with
  | "A+B" =>
    A.flatMap fun a => B.map fun b =>
      ⟨a ++ b, "A+B", jsStr "A:" ++ a ++ jsStr ", B:" ++ b⟩
  | "B+A" =>
    B.flatMap fun b => A.map fun a =>
      ⟨b ++ a, "B+A", jsStr "B:" ++ b ++ jsStr ", A:" ++ a⟩
  | "A+B+C" =>
    A.flatMap fun a => B.flatMap fun b => C.map fun c =>
      ⟨a ++ b ++ c, "A+B+C",
        jsStr "A:" ++ a ++ jsStr ", B:" ++ b ++ jsStr ", C:" ++ c⟩
  | "prefix+A+B" =>
    prefixes.flatMap fun p => A.flatMap fun a => B.map fun b =>
      ⟨p ++ a ++ b, "prefix+A+B",
        jsStr "pre:" ++ p ++ jsStr ", A:" ++ a ++ jsStr ", B:" ++ b⟩
  | "A+B+suffix" =>
    A.flatMap fun a => B.flatMap fun b => suffixes.map fun s =>
      ⟨a ++ b ++ s, "A+B+suffix",
        jsStr "A:" ++ a ++ jsStr ", B:" ++ b ++ jsStr ", suf:" ++ s⟩
  | "prefix+A+B+suffix" =>
    prefixes.flatMap fun p => A.flatMap fun a => B.flatMap fun b =>
      suffixes.map fun s =>
        ⟨p ++ a ++ b ++ s, "prefix+A+B+suffix",
          jsStr "pre:" ++ p ++ jsStr ", A:" ++ a ++ jsStr ", B:" ++ b ++
            jsStr ", suf:" ++ s⟩
  | _ => []

/-- All raw combos emitted by the template loop of `generateCombinations`
(agent.js lines 215-220), in emission order, before `Set` deduplication. -/
def rawCombos (packs : Option Packs) (multipliers : Option Multipliers)
    (templates : Option (List String)) : List Combo :=
  let A := ((packs.getD {}).A).getD []
  let B := ((packs.getD {}).B).getD []
  let C := ((packs.getD {}).C).getD []
  let prefixes := ((multipliers.getD {}).prefixes).getD []
  let suffixes := ((multipliers.getD {}).suffixes).getD []
  (templates.getD ["A+B"]).flatMap fun t =>
    applyTemplate t A B C prefixes suffixes

/-- The `results` JS `Set` of `generateCombinations` read back in iteration
order: raw combos deduplicated by exact (domain, template, sources)
equality of their JSON serializations, first emission kept. -/
def generationSet (packs : Option Packs) (multipliers : Option Multipliers)
    (templates : Option (List String)) : List Combo :=
  jsSetOfList (rawCombos packs multipliers templates)

/-- The normalize-and-filter body of the second loop of
`generateCombinations` (agent.js lines 223-243): `none` when the candidate
is dropped by a `continue`, `some` of the surviving candidate otherwise. -/
def normFilter (maxLen : Nat) (noHyphens noNumbers : Bool)
    (banned : List Str) (avoidUgly : Bool) (combo : Combo) :
    Option Candidate :=
  let normalized := normalize combo.domain
  if normalized.isEmpty then none
  else if maxLen < normalized.length then none
  else if noHyphens && normalized.contains '-' then none
  else if noNumbers && normalized.any isDigitC then none
  else if avoidUgly && UGLY_CLUSTERS normalized then none
  else if banned.any (fun b => !b.isEmpty && hasOccur normalized (jsToLower b))
    then none
  else some ⟨normalized, combo.template, combo.sources⟩

/-- `generateCombinations(packs, multipliers, templates, constraints)`
(agent.js lines 204-246). -/
def generateCombinations (packs : Option Packs)
    (multipliers : Option Multipliers) (templates : Option (List String))
    (constraints : Option Constraints) : List Candidate :=
  let maxLen := jsOrNat (constraints.bind Constraints.maxLen) 12
  let noHyphens := jsNeqFalse (constraints.bind Constraints.noHyphens)
  let noNumbers := jsNeqFalse (constraints.bind Constraints.noNumbers)
  let banned := (constraints.bind Constraints.banned).getD []
  let avoidUgly := jsNeqFalse (constraints.bind Constraints.avoidUglyClusters)
  (generationSet packs multipliers templates).filterMap
    (normFilter maxLen noHyphens noNumbers banned avoidUgly)

/-- One element of the oracle's parsed JSON array in single-persona mode.
`score` is the value of `parseFloat(s.score)`: `some q` when numeric,
`none` when `NaN` (absent or non-numeric). `bucket` is the raw bucket
string (an absent field is modelled as `""`, which the enum check treats
like any other invalid value). -/
structure RawScore where
  domain : Str := []
  score : Option ℚ := none
  bucket : String := ""
  reason : Str := []
  use_case : Str := []
deriving DecidableEq, Inhabited

/-- A single-persona result record. The failure records built by the spread
`{...c, score: 0, ...}` carry the candidate's template under the key
`template` instead of `templateUsed`; both are modelled by the one field
`templateUsed` since the value is the same. -/
structure SingleResult where
  domain : Str
  score : ℚ
  bucket : String
  reason : Str
  use_case : Str
  templateUsed : String
  sources : Str
deriving DecidableEq

/-- The oracle interaction of `scoreSingleBatch`, as seen past the network
and `JSON.parse` boundary: an HTTP error response (`!response.ok`), a
thrown parse error (`response.json()` or `JSON.parse(content)` on a
malformed body), or the successfully parsed JSON array. -/
inductive OracleReply where
  | notOk
  | parseFailure
  | scores (entries : List RawScore)

/-- `Math.min(10, Math.max(0, parseFloat(x) || 0))` (agent.js lines 340,
459): `parseFloat` yielding `NaN` (`none`) is replaced by `0` by `|| 0`
(a numeric `0` is also falsy and also yields `0`), then clamped. -/
def clampScore (v : Option ℚ) : ℚ := min 10 (max 0 (v.getD 0))

/-- `['FAST-FLIP', 'HOLD', 'PASS'].includes(b) ? b : 'PASS'` (agent.js
lines 341, 466). -/
def validBucket (b : String) : String :=
  if b = "FAST-FLIP" || b = "HOLD" || b = "PASS" then b else "PASS"

/-- The key under which `scoreSingleBatch` and `scoreMultiPresetBatch`
index an oracle result entry: `s.domain.replace('.com', '').toLowerCase()`
(agent.js lines 333, 411) — the leftmost literal `.com` occurrence removed
(wherever it appears), then lower-cased. -/
def normKey (s : Str) : Str := jsToLower (jsReplaceFirst s (jsStr ".com") [])

/-- The `scoreMap` of `scoreSingleBatch` (agent.js lines 331-334). -/
def buildScoreMap (entries : List RawScore) : List (Str × RawScore) :=
  entries.foldl (fun m s => jsObjSet m (normKey s.domain) s) []

/-- `scoreSingleBatch(batch, mode, apiKey)` (agent.js lines 288-353),
with the oracle interaction abstracted as an `OracleReply`. The `mode`
argument only selects prompt text and does not affect the result shape, so
it is omitted. An HTTP error response yields per-candidate failure records
with reason `Scoring failed`; a thrown error — including a JSON parse
failure on a malformed body — is caught and yields failure records with
reason `Error`. -/
def scoreSingleBatch (batch : List Candidate) (reply : OracleReply) :
    List SingleResult :=
  match reply with
  | .notOk =>
    batch.map fun c =>
      { domain := c.domain, score := 0, bucket := "PASS",
        reason := jsStr "Scoring failed", use_case := [],
        templateUsed := c.template, sources := c.sources }
  | .parseFailure =>
    batch.map fun c =>
      { domain := c.domain, score := 0, bucket := "PASS",
        reason := jsStr "Error", use_case := [],
        templateUsed := c.template, sources := c.sources }
  | .scores entries =>
    let scoreMap := buildScoreMap entries
    batch.map fun c =>
      let s := (jsObjLookup scoreMap (jsToLower c.domain)).getD {}
      { domain := c.domain,
        score := clampScore s.score,
        bucket := validBucket s.bucket,
        reason := s.reason.take 200,
        use_case := s.use_case.take 50,
        templateUsed := c.template, sources := c.sources }

/-- One persona's sub-result inside a multi-persona oracle entry
(`resultsByPreset[pid]`), with the same field conventions as `RawScore`. -/
structure PresetResult where
  score : Option ℚ := none
  bucket : String := ""
  reason : Str := []
  use_case : Str := []
deriving DecidableEq, Inhabited

/-- One element of the oracle's parsed JSON array in multi-persona mode;
`resultsByPreset` is `none` when the field is absent or falsy. -/
structure RawMultiEntry where
  domain : Str := []
  resultsByPreset : Option (List (String × PresetResult)) := none

/-- A multi-persona result record (`MultiScoreResult`). -/
structure MultiResult where
  domain : Str
  templateUsed : String
  sources : Str
  bestPresetId : String
  bestPresetName : String
  bestScore : ℚ
  avgScore : ℚ
  maxScore : ℚ
  bucket : String
  reason : Str
  use_case : Str
  scoreByPreset : List (String × ℚ)
deriving DecidableEq

/-- `Math.round(x * 10) / 10`, the one-decimal rounding used on every
reported multi-persona score. `Math.round` rounds half away from zero
toward positive infinity, i.e. `⌊x + 1/2⌋`. -/
def round1 (q : ℚ) : ℚ := (Rat.floor (q * 10 + 1 / 2) : ℚ) / 10

/-- The loop state of `processMultiResult` (agent.js lines 449-470). -/
structure MultiState where
  bestScore : ℚ
  bestPresetId : String
  bestBucket : String
  bestReason : Str
  bestUseCase : Str
  scoreByPreset : List (String × ℚ)
  scores : List ℚ

/-- One iteration of the `for (const pid of presetIds)` loop of
`processMultiResult` (agent.js lines 457-470). -/
def multiStep (resultsByPreset : List (String × PresetResult))
    (st : MultiState) (pid : String) : MultiState :=
  let result := (jsObjLookup resultsByPreset pid).getD {}
  let score := clampScore result.score
  let sbp := jsObjSet st.scoreByPreset pid (round1 score)
  let scs := st.scores ++ [score]
  if st.bestScore < score then
    { bestScore := score, bestPresetId := pid,
      bestBucket := validBucket result.bucket,
      bestReason := result.reason.take 200,
      bestUseCase := result.use_case.take 50,
      scoreByPreset := sbp, scores := scs }
  else
    { st with scoreByPreset := sbp, scores := scs }

/-- The initial loop state (agent.js lines 449-455); `presetIds[0]` on an
empty list is `undefined`, modelled as `""`. -/
def initMultiState (presetIds : List String) : MultiState :=
  { bestScore := 0, bestPresetId := presetIds.headD "",
    bestBucket := "PASS", bestReason := [], bestUseCase := [],
    scoreByPreset := [], scores := [] }

/-- The final-bucket re-derivation (agent.js lines 475-484). -/
def finalBucket (bestScore : ℚ) (bestBucket : String) : String :=
  if 8 ≤ bestScore then "FAST-FLIP"
  else if 7 ≤ bestScore then
    (if bestBucket = "FAST-FLIP" then "FAST-FLIP" else "HOLD")
  else if 4 ≤ bestScore then "HOLD"
  else "PASS"

/-- `processMultiResult(candidate, resultsByPreset, presetIds, presetMap)`
(agent.js lines 448-500). `presetMap` is reduced to the id-to-name mapping,
the only part this function reads. -/
def processMultiResult (candidate : Candidate)
    (resultsByPreset : List (String × PresetResult))
    (presetIds : List String) (presetMap : List (String × String)) :
    MultiResult :=
  let st := presetIds.foldl (multiStep resultsByPreset)
    (initMultiState presetIds)
  let avgScore :=
    if 0 < st.scores.length then st.scores.sum / (st.scores.length : ℚ)
    else 0
  { domain := candidate.domain, templateUsed := candidate.template,
    sources := candidate.sources,
    bestPresetId := st.bestPresetId,
    bestPresetName := (jsObjLookup presetMap st.bestPresetId).getD
      st.bestPresetId,
    bestScore := round1 st.bestScore,
    avgScore := round1 avgScore,
    maxScore := round1 st.bestScore,
    bucket := finalBucket st.bestScore st.bestBucket,
    reason := st.bestReason, use_case := st.bestUseCase,
    scoreByPreset := st.scoreByPreset }

/-- `createEmptyMultiResult(candidate, presetIds, presetMap)` (agent.js
lines 429-446). -/
def createEmptyMultiResult (candidate : Candidate)
    (presetIds : List String) (presetMap : List (String × String)) :
    MultiResult :=
  { domain := candidate.domain, templateUsed := candidate.template,
    sources := candidate.sources,
    bestPresetId := presetIds.headD "",
    bestPresetName := (jsObjLookup presetMap (presetIds.headD "")).getD
      (presetIds.headD ""),
    bestScore := 0, avgScore := 0, maxScore := 0,
    bucket := "PASS", reason := jsStr "Scoring failed", use_case := [],
    scoreByPreset := presetIds.foldl (fun m pid => jsObjSet m pid 0) [] }

/-- The oracle interaction of `scoreMultiPresetBatch`, as for
`OracleReply`. -/
inductive MultiReply where
  | notOk
  | parseFailure
  | results (entries : List RawMultiEntry)

/-- The `resultMap` of `scoreMultiPresetBatch` (agent.js lines 409-413),
keyed by `String(r.domain || '').replace('.com', '').toLowerCase()`. -/
def buildResultMap (entries : List RawMultiEntry) :
    List (Str × RawMultiEntry) :=
  entries.foldl (fun m r => jsObjSet m (normKey r.domain) r) []

/-- `scoreMultiPresetBatch(batch, presetIds, presetMap, apiKey)` (agent.js
lines 356-427), with the oracle interaction abstracted as a `MultiReply`. -/
def scoreMultiPresetBatch (batch : List Candidate)
    (presetIds : List String) (presetMap : List (String × String))
    (reply : MultiReply) : List MultiResult :=
  match reply with
  | .notOk => batch.map fun c => createEmptyMultiResult c presetIds presetMap
  | .parseFailure =>
    batch.map fun c => createEmptyMultiResult c presetIds presetMap
  | .results entries =>
    let resultMap := buildResultMap entries
    batch.map fun c =>
      match jsObjLookup resultMap (jsToLower c.domain) with
      | none => createEmptyMultiResult c presetIds presetMap
      | some r =>
        match r.resultsByPreset with
        | none => createEmptyMultiResult c presetIds presetMap
        | some rbp => processMultiResult c rbp presetIds presetMap

/-- `Math.min(topK || 100, MAX_TOPK)` with `MAX_TOPK = 300` (agent.js
line 107). -/
def limitedTopK (topK : Option Nat) : Nat := min (jsOrNat topK 100) 300

/-- The single-persona sort comparator `(a, b) => b.score - a.score`
(agent.js line 176), as the "a may precede b" relation of a stable sort. -/
def singleLe (a b : SingleResult) : Bool := b.score ≤ a.score

/-- The multi-persona sort comparator (agent.js lines 171-174): descending
`bestScore`, ties broken by descending `avgScore`, as the "a may precede
b" relation of a stable sort. -/
def multiLe (a b : MultiResult) : Bool :=
  if a.bestScore = b.bestScore then b.avgScore ≤ a.avgScore
  else b.bestScore < a.bestScore

/-- The handler's single-persona ranking step (agent.js lines 176, 179):
`allScores.sort((a, b) => b.score - a.score)` — a stable sort per the
ECMAScript specification — then `slice(0, limitedTopK)`. -/
def rankSingleResults (allScores : List SingleResult) (topK : Option Nat) :
    List SingleResult :=
  (allScores.mergeSort singleLe).take (limitedTopK topK)

/-- The handler's multi-persona ranking step (agent.js lines 171-174, 179). -/
def rankMultiResults (allScores : List MultiResult) (topK : Option Nat) :
    List MultiResult :=
  (allScores.mergeSort multiLe).take (limitedTopK topK)

/-! ## Supporting lemmas -/

theorem mem_foldl_jsSetAdd [DecidableEq α] (l : List α) (acc : List α)
    (a : α) : a ∈ l.foldl jsSetAdd acc ↔ a ∈ acc ∨ a ∈ l := by
  induction l generalizing acc with
  | nil => simp
  | cons x t ih =>
    simp only [List.foldl_cons, ih, jsSetAdd]
    by_cases hx : x ∈ acc
    · simp only [if_pos hx, List.mem_cons]
      constructor
      · rintro (h | h) <;> tauto
      · rintro (h | h | h)
        · tauto
        · exact Or.inl (h ▸ hx)
        · tauto
    · simp only [if_neg hx, List.mem_append, List.mem_singleton,
        List.mem_cons]
      tauto

theorem nodup_foldl_jsSetAdd [DecidableEq α] (l : List α) (acc : List α)
    (h : acc.Nodup) : (l.foldl jsSetAdd acc).Nodup := by
  induction l generalizing acc with
  | nil => exact h
  | cons x t ih =>
    simp only [List.foldl_cons]
    apply ih
    unfold jsSetAdd
    by_cases hx : x ∈ acc
    · simpa [hx] using h
    · simp only [if_neg hx]
      simp [List.nodup_append, h, hx]

theorem mem_jsSetOfList [DecidableEq α] (l : List α) (a : α) :
    a ∈ jsSetOfList l ↔ a ∈ l := by
  simp [jsSetOfList, mem_foldl_jsSetAdd]

theorem nodup_jsSetOfList [DecidableEq α] (l : List α) :
    (jsSetOfList l).Nodup := nodup_foldl_jsSetAdd l [] List.nodup_nil

theorem jsObjSet_map_self [DecidableEq κ] (g : κ → α) (acc : List κ)
    (k : κ) (h : k ∈ acc) :
    jsObjSet (acc.map fun x => (x, g x)) k (g k) =
      acc.map fun x => (x, g x) := by
  induction acc with
  | nil => cases h
  | cons a t ih =>
    simp only [List.map_cons, jsObjSet]
    by_cases hak : a = k
    · subst hak
      simp
    · rw [if_neg hak, ih (by cases h with
        | head => exact absurd rfl hak
        | tail _ h => exact h)]

theorem jsObjSet_map_append [DecidableEq κ] (g : κ → α) (acc : List κ)
    (k : κ) (h : k ∉ acc) (v : α) :
    jsObjSet (acc.map fun x => (x, g x)) k v =
      (acc.map fun x => (x, g x)) ++ [(k, v)] := by
  induction acc with
  | nil => rfl
  | cons a t ih =>
    simp only [List.map_cons, jsObjSet]
    have hak : a ≠ k := fun e => h (e ▸ List.mem_cons_self a t)
    rw [if_neg hak, ih (fun ht => h (List.mem_cons_of_mem a ht))]
    simp

theorem foldl_jsObjSet_map [DecidableEq κ] (g : κ → α) (pids acc : List κ) :
    pids.foldl (fun m pid => jsObjSet m pid (g pid))
        (acc.map fun k => (k, g k)) =
      (pids.foldl jsSetAdd acc).map fun k => (k, g k) := by
  induction pids generalizing acc with
  | nil => rfl
  | cons x t ih =>
    simp only [List.foldl_cons]
    rw [show jsObjSet (acc.map fun k => (k, g k)) x (g x) =
        (jsSetAdd acc x).map fun k => (k, g k) from ?_]
    · exact ih (jsSetAdd acc x)
    · unfold jsSetAdd
      by_cases hx : x ∈ acc
      · rw [if_pos hx]
        exact jsObjSet_map_self g acc x hx
      · rw [if_neg hx, jsObjSet_map_append g acc x hx]
        simp

theorem jsObjLookup_map_of_mem [DecidableEq κ] (g : κ → α) (S : List κ)
    (k : κ) (h : k ∈ S) :
    jsObjLookup (S.map fun x => (x, g x)) k = some (g k) := by
  induction S with
  | nil => cases h
  | cons a t ih =>
    by_cases hak : a = k
    · subst hak
      simp [jsObjLookup, List.find?_cons]
    · have : k ∈ t := by
        cases h with
        | head => exact absurd rfl hak
        | tail _ h => exact h
      simpa [jsObjLookup, List.find?_cons, hak] using ih this

theorem le_foldl_max_init (l : List ℚ) (e : ℚ) : e ≤ l.foldl max e := by
  induction l generalizing e with
  | nil => exact le_rfl
  | cons a t ih => exact le_trans (le_max_left e a) (ih (max e a))

theorem le_foldl_max_mem (l : List ℚ) (e x : ℚ) (h : x ∈ l) :
    x ≤ l.foldl max e := by
  induction l generalizing e with
  | nil => cases h
  | cons a t ih =>
    cases h with
    | head => exact le_trans (le_max_right e x) (le_foldl_max_init t _)
    | tail _ h => exact ih _ h

theorem foldl_max_le (l : List ℚ) (e c : ℚ) (he : e ≤ c)
    (h : ∀ x ∈ l, x ≤ c) : l.foldl max e ≤ c := by
  induction l generalizing e with
  | nil => exact he
  | cons a t ih =>
    exact ih _ (max_le he (h a (List.mem_cons_self a t)))
      (fun x hx => h x (List.mem_cons_of_mem a hx))

theorem foldl_max_eq_init (l : List ℚ) (e : ℚ) (h : ∀ x ∈ l, x ≤ e) :
    l.foldl max e = e :=
  le_antisymm (foldl_max_le l e e le_rfl h) (le_foldl_max_init l e)

theorem foldl_max_attained (l : List ℚ) (e : ℚ) :
    l.foldl max e = e ∨ ∃ x ∈ l, l.foldl max e = x := by
  induction l generalizing e with
  | nil => exact Or.inl rfl
  | cons a t ih =>
    rcases ih (max e a) with h | ⟨x, hx, hh⟩
    · rcases max_choice e a with he | ha
      · exact Or.inl (by rw [List.foldl_cons, h, he])
      · exact Or.inr ⟨a, List.mem_cons_self a t,
          by rw [List.foldl_cons, h, ha]⟩
    · exact Or.inr ⟨x, List.mem_cons_of_mem a hx, hh⟩

theorem foldl_max_congr_mem (p q : List ℚ) (e : ℚ)
    (h : ∀ x, x ∈ p ↔ x ∈ q) : p.foldl max e = q.foldl max e :=
  le_antisymm
    (foldl_max_le p e _ (le_foldl_max_init q e)
      (fun x hx => le_foldl_max_mem q e x ((h x).1 hx)))
    (foldl_max_le q e _ (le_foldl_max_init p e)
      (fun x hx => le_foldl_max_mem p e x ((h x).2 hx)))

theorem ratFloor_eq_intFloor (q : ℚ) : Rat.floor q = ⌊q⌋ := by
  rw [Rat.floor_def', Rat.floor_def]

theorem round1_eq (q : ℚ) : round1 q = ((⌊q * 10 + 1 / 2⌋ : ℤ) : ℚ) / 10 := by
  rw [round1, ratFloor_eq_intFloor]

theorem round1_mono {q r : ℚ} (h : q ≤ r) : round1 q ≤ round1 r := by
  rw [round1_eq, round1_eq]
  have hf : (⌊q * 10 + 1 / 2⌋ : ℤ) ≤ ⌊r * 10 + 1 / 2⌋ :=
    Int.floor_mono (by linarith)
  have hc : ((⌊q * 10 + 1 / 2⌋ : ℤ) : ℚ) ≤ ((⌊r * 10 + 1 / 2⌋ : ℤ) : ℚ) :=
    Int.cast_le.mpr hf
  exact div_le_div_of_nonneg_right hc (by norm_num)

theorem round1_max (a b : ℚ) :
    round1 (max a b) = max (round1 a) (round1 b) := by
  rcases le_total a b with h | h
  · rw [max_eq_right h, max_eq_right (round1_mono h)]
  · rw [max_eq_left h, max_eq_left (round1_mono h)]

theorem round1_zero : round1 0 = 0 := by
  rw [round1_eq]
  norm_num

theorem round1_ten : round1 10 = 10 := by
  rw [round1_eq]
  norm_num

theorem round1_nonneg {q : ℚ} (h : 0 ≤ q) : 0 ≤ round1 q :=
  round1_zero ▸ round1_mono h

theorem round1_le_ten {q : ℚ} (h : q ≤ 10) : round1 q ≤ 10 :=
  round1_ten ▸ round1_mono h

theorem clampScore_nonneg (v : Option ℚ) : 0 ≤ clampScore v :=
  le_min (by norm_num) (le_max_left 0 _)

theorem clampScore_le_ten (v : Option ℚ) : clampScore v ≤ 10 :=
  min_le_left _ _

theorem toLower_of_keepChar (c : Char) (h : keepChar c = true) :
    c.toLower = c := by
  unfold keepChar at h
  simp only [Bool.or_eq_true, Bool.and_eq_true, decide_eq_true_eq] at h
  unfold Char.toLower
  rw [if_neg]
  rcases h with (⟨h1, h2⟩ | ⟨h1, h2⟩) | h1
  · have h1n : (97 : Nat) ≤ c.val.toNat := h1
    have h2n : c.val.toNat ≤ 122 := h2
    simp only [Char.toNat]
    omega
  · have h1n : (48 : Nat) ≤ c.val.toNat := h1
    have h2n : c.val.toNat ≤ 57 := h2
    simp only [Char.toNat]
    omega
  · subst h1
    decide

theorem jsToLower_normalize (s : Str) :
    jsToLower (normalize s) = normalize s := by
  unfold normalize
  generalize jsToLower s = t
  unfold jsToLower
  rw [List.map_congr_left (fun c hc => toLower_of_keepChar c
    (List.of_mem_filter hc))]
  exact List.map_id _

/-- The clamped score `processMultiResult` computes for one persona id:
`Math.min(10, Math.max(0, parseFloat((resultsByPreset[pid] || {}).score) || 0))`. -/
def clampedScoreOf (rbp : List (String × PresetResult)) (pid : String) : ℚ :=
  clampScore ((jsObjLookup rbp pid).getD {}).score

/-- The enum-checked bucket reported for one persona id. -/
def presetBucketOf (rbp : List (String × PresetResult)) (pid : String) :
    String :=
  validBucket ((jsObjLookup rbp pid).getD {}).bucket

/-- The maximum of all clamped persona scores (with the loop's initial `0`
as floor; every clamped score is nonnegative, so for a non-empty persona
list this is their true maximum). -/
def specMaxScore (rbp : List (String × PresetResult))
    (pids : List String) : ℚ :=
  (pids.map (clampedScoreOf rbp)).foldl max 0

/-- The winning persona: the first of the requested list whose clamped
score equals the maximum (the loop updates only on a strictly greater
score, so earlier personas win ties); `presetIds[0]` when the list is
all zeros, `""` (JS `undefined`) when it is empty. -/
def specWinnerId (rbp : List (String × PresetResult))
    (pids : List String) : String :=
  (pids.find? fun pid =>
    clampedScoreOf rbp pid = specMaxScore rbp pids).getD (pids.headD "")

/-- The winning persona's enum-checked bucket; when no persona scores
above `0` the loop never updates and keeps its initial `'PASS'`. -/
def specWinnerBucket (rbp : List (String × PresetResult))
    (pids : List String) : String :=
  if specMaxScore rbp pids = 0 then "PASS"
  else presetBucketOf rbp (specWinnerId rbp pids)

theorem clampedScoreOf_nonneg (rbp : List (String × PresetResult))
    (pid : String) : 0 ≤ clampedScoreOf rbp pid := clampScore_nonneg _

theorem clampedScoreOf_le_ten (rbp : List (String × PresetResult))
    (pid : String) : clampedScoreOf rbp pid ≤ 10 := clampScore_le_ten _

theorem multiStep_scores (rbp : List (String × PresetResult))
    (st : MultiState) (pid : String) :
    (multiStep rbp st pid).scores = st.scores ++ [clampedScoreOf rbp pid] := by
  simp only [multiStep, clampedScoreOf]
  split <;> rfl

theorem multiStep_scoreByPreset (rbp : List (String × PresetResult))
    (st : MultiState) (pid : String) :
    (multiStep rbp st pid).scoreByPreset =
      jsObjSet st.scoreByPreset pid (round1 (clampedScoreOf rbp pid)) := by
  simp only [multiStep, clampedScoreOf]
  split <;> rfl

theorem multiStep_bestScore (rbp : List (String × PresetResult))
    (st : MultiState) (pid : String) :
    (multiStep rbp st pid).bestScore =
      max st.bestScore (clampedScoreOf rbp pid) := by
  simp only [multiStep, clampedScoreOf]
  split
  · next h => exact (max_eq_right (le_of_lt h)).symm
  · next h => exact (max_eq_left (not_lt.mp h)).symm

theorem multiStep_best_of_le (rbp : List (String × PresetResult))
    (st : MultiState) (pid : String)
    (h : clampedScoreOf rbp pid ≤ st.bestScore) :
    (multiStep rbp st pid).bestPresetId = st.bestPresetId ∧
      (multiStep rbp st pid).bestBucket = st.bestBucket := by
  simp only [clampedScoreOf] at h
  simp only [multiStep]
  rw [if_neg (not_lt.mpr h)]
  exact ⟨rfl, rfl⟩

theorem multiStep_best_of_lt (rbp : List (String × PresetResult))
    (st : MultiState) (pid : String)
    (h : st.bestScore < clampedScoreOf rbp pid) :
    (multiStep rbp st pid).bestPresetId = pid ∧
      (multiStep rbp st pid).bestBucket = presetBucketOf rbp pid := by
  simp only [clampedScoreOf] at h
  simp only [multiStep, presetBucketOf]
  rw [if_pos h]
  exact ⟨rfl, rfl⟩

theorem loop_scores (rbp : List (String × PresetResult))
    (pids : List String) (st : MultiState) :
    (pids.foldl (multiStep rbp) st).scores =
      st.scores ++ pids.map (clampedScoreOf rbp) := by
  induction pids generalizing st with
  | nil => simp
  | cons x t ih =>
    simp only [List.foldl_cons, List.map_cons]
    rw [ih, multiStep_scores]
    simp

theorem loop_scoreByPreset (rbp : List (String × PresetResult))
    (pids : List String) (st : MultiState) :
    (pids.foldl (multiStep rbp) st).scoreByPreset =
      pids.foldl
        (fun m pid => jsObjSet m pid (round1 (clampedScoreOf rbp pid)))
        st.scoreByPreset := by
  induction pids generalizing st with
  | nil => rfl
  | cons x t ih =>
    simp only [List.foldl_cons]
    rw [ih, multiStep_scoreByPreset]

theorem loop_bestScore (rbp : List (String × PresetResult))
    (pids : List String) (st : MultiState) :
    (pids.foldl (multiStep rbp) st).bestScore =
      (pids.map (clampedScoreOf rbp)).foldl max st.bestScore := by
  induction pids generalizing st with
  | nil => rfl
  | cons x t ih =>
    simp only [List.foldl_cons, List.map_cons]
    rw [ih, multiStep_bestScore]

theorem loop_best_of_all_le (rbp : List (String × PresetResult))
    (pids : List String) (st : MultiState)
    (h : ∀ pid ∈ pids, clampedScoreOf rbp pid ≤ st.bestScore) :
    (pids.foldl (multiStep rbp) st).bestPresetId = st.bestPresetId ∧
      (pids.foldl (multiStep rbp) st).bestBucket = st.bestBucket ∧
      (pids.foldl (multiStep rbp) st).bestScore = st.bestScore := by
  induction pids generalizing st with
  | nil => exact ⟨rfl, rfl, rfl⟩
  | cons x t ih =>
    simp only [List.foldl_cons]
    have hx := h x (List.mem_cons_self x t)
    have hbs : (multiStep rbp st x).bestScore = st.bestScore := by
      rw [multiStep_bestScore]
      exact max_eq_left hx
    have hbf := multiStep_best_of_le rbp st x hx
    have ht : ∀ pid ∈ t, clampedScoreOf rbp pid ≤
        (multiStep rbp st x).bestScore := by
      rw [hbs]
      exact fun pid hp => h pid (List.mem_cons_of_mem x hp)
    obtain ⟨h1, h2, h3⟩ := ih (multiStep rbp st x) ht
    exact ⟨h1.trans hbf.1, h2.trans hbf.2, h3.trans hbs⟩

theorem loop_best_of_exceed (rbp : List (String × PresetResult))
    (pids : List String) (st : MultiState)
    (h : ∃ pid ∈ pids, st.bestScore < clampedScoreOf rbp pid) :
    ∃ w, pids.find? (fun pid => clampedScoreOf rbp pid =
        (pids.map (clampedScoreOf rbp)).foldl max st.bestScore) = some w ∧
      (pids.foldl (multiStep rbp) st).bestPresetId = w ∧
      (pids.foldl (multiStep rbp) st).bestBucket = presetBucketOf rbp w := by
  induction pids generalizing st with
  | nil => obtain ⟨pid, hp, _⟩ := h; cases hp
  | cons x t ih =>
    simp only [List.foldl_cons, List.map_cons]
    by_cases hx : st.bestScore < clampedScoreOf rbp x
    · have hst : (multiStep rbp st x).bestScore = clampedScoreOf rbp x := by
        rw [multiStep_bestScore]
        exact max_eq_right (le_of_lt hx)
      have hmax : max st.bestScore (clampedScoreOf rbp x) =
          clampedScoreOf rbp x := max_eq_right (le_of_lt hx)
      have hbf := multiStep_best_of_lt rbp st x hx
      by_cases ht : ∃ r ∈ t, clampedScoreOf rbp x < clampedScoreOf rbp r
      · have ht2 : ∃ r ∈ t,
            (multiStep rbp st x).bestScore < clampedScoreOf rbp r := by
          rw [hst]; exact ht
        obtain ⟨w, hw1, hw2, hw3⟩ := ih (multiStep rbp st x) ht2
        rw [hst] at hw1
        obtain ⟨r, hr, hrx⟩ := ht
        have hM : clampedScoreOf rbp x <
            (t.map (clampedScoreOf rbp)).foldl max
              (clampedScoreOf rbp x) :=
          lt_of_lt_of_le hrx (le_foldl_max_mem _ _ _
            (List.mem_map_of_mem _ hr))
        refine ⟨w, ?_, hw2, hw3⟩
        have hd : (decide (clampedScoreOf rbp x =
            (t.map (clampedScoreOf rbp)).foldl max
              (clampedScoreOf rbp x))) = false := by
          simp only [decide_eq_false_iff_not]
          exact fun he => absurd he (ne_of_lt hM)
        rw [List.find?_cons]
        simp only [hmax, hd]
        exact hw1
      · push_neg at ht
        have hall : ∀ pid ∈ t, clampedScoreOf rbp pid ≤
            (multiStep rbp st x).bestScore := by
          rw [hst]; exact ht
        obtain ⟨h1, h2, h3⟩ := loop_best_of_all_le rbp t
          (multiStep rbp st x) hall
        have hM : (t.map (clampedScoreOf rbp)).foldl max
            (clampedScoreOf rbp x) = clampedScoreOf rbp x := by
          apply foldl_max_eq_init
          intro y hy
          obtain ⟨r, hr, rfl⟩ := List.mem_map.mp hy
          exact ht r hr
        refine ⟨x, ?_, h1.trans hbf.1, h2.trans hbf.2⟩
        rw [List.find?_cons]
        simp only [hmax, hM, decide_eq_true_eq]
        simp
    · push_neg at hx
      have hst : (multiStep rbp st x).bestScore = st.bestScore := by
        rw [multiStep_bestScore]
        exact max_eq_left hx
      have hmax : max st.bestScore (clampedScoreOf rbp x) = st.bestScore :=
        max_eq_left hx
      have hbf := multiStep_best_of_le rbp st x hx
      obtain ⟨pid, hp, hpl⟩ := h
      have hpt : pid ∈ t := by
        cases hp with
        | head => exact absurd hpl (not_lt.mpr hx)
        | tail _ hp => exact hp
      have ht2 : ∃ r ∈ t,
          (multiStep rbp st x).bestScore < clampedScoreOf rbp r :=
        ⟨pid, hpt, by rw [hst]; exact hpl⟩
      obtain ⟨w, hw1, hw2, hw3⟩ := ih (multiStep rbp st x) ht2
      rw [hst] at hw1
      have hM : st.bestScore <
          (t.map (clampedScoreOf rbp)).foldl max st.bestScore :=
        lt_of_lt_of_le hpl (le_foldl_max_mem _ _ _
          (List.mem_map_of_mem _ hpt))
      have hxM : clampedScoreOf rbp x ≠
          (t.map (clampedScoreOf rbp)).foldl max st.bestScore :=
        ne_of_lt (lt_of_le_of_lt hx hM)
      refine ⟨w, ?_, hw2, hw3⟩
      have hd : (decide (clampedScoreOf rbp x =
          (t.map (clampedScoreOf rbp)).foldl max st.bestScore)) = false := by
        simp only [decide_eq_false_iff_not]
        exact hxM
      rw [List.find?_cons]
      simp only [hmax, hd]
      exact hw1

/-- The end-state of the `processMultiResult` loop, characterized by the
specification-side maximum and first-attaining ("winning") persona. -/
theorem loop_best_char (rbp : List (String × PresetResult))
    (pids : List String) :
    (pids.foldl (multiStep rbp) (initMultiState pids)).bestScore =
        specMaxScore rbp pids ∧
      (pids.foldl (multiStep rbp) (initMultiState pids)).bestPresetId =
        specWinnerId rbp pids ∧
      (pids.foldl (multiStep rbp) (initMultiState pids)).bestBucket =
        specWinnerBucket rbp pids := by
  have hinit : (initMultiState pids).bestScore = 0 := rfl
  have hbs : (pids.foldl (multiStep rbp) (initMultiState pids)).bestScore =
      specMaxScore rbp pids := by
    rw [loop_bestScore, hinit]
    rfl
  refine ⟨hbs, ?_⟩
  by_cases h : ∃ pid ∈ pids, (0 : ℚ) < clampedScoreOf rbp pid
  · have h2 : ∃ pid ∈ pids,
        (initMultiState pids).bestScore < clampedScoreOf rbp pid := by
      rw [hinit]; exact h
    obtain ⟨w, hw1, hw2, hw3⟩ := loop_best_of_exceed rbp pids
      (initMultiState pids) h2
    rw [hinit] at hw1
    have hMpos : 0 < specMaxScore rbp pids := by
      obtain ⟨pid, hp, hpl⟩ := h
      exact lt_of_lt_of_le hpl (le_foldl_max_mem _ _ _
        (List.mem_map_of_mem _ hp))
    constructor
    · rw [hw2]
      unfold specWinnerId
      rw [show (pids.find? fun pid => clampedScoreOf rbp pid =
          specMaxScore rbp pids) = some w from hw1]
      rfl
    · rw [hw3]
      unfold specWinnerBucket
      rw [if_neg (ne_of_gt hMpos)]
      unfold specWinnerId
      rw [show (pids.find? fun pid => clampedScoreOf rbp pid =
          specMaxScore rbp pids) = some w from hw1]
      rfl
  · push_neg at h
    have hall : ∀ pid ∈ pids, clampedScoreOf rbp pid ≤
        (initMultiState pids).bestScore := by
      rw [hinit]; exact h
    obtain ⟨h1, h2, h3⟩ := loop_best_of_all_le rbp pids
      (initMultiState pids) hall
    have hM0 : specMaxScore rbp pids = 0 := by
      unfold specMaxScore
      apply foldl_max_eq_init
      intro y hy
      obtain ⟨r, hr, rfl⟩ := List.mem_map.mp hy
      exact h r hr
    constructor
    · rw [h1]
      unfold specWinnerId
      cases pids with
      | nil => rfl
      | cons a t =>
        have ha0 : clampedScoreOf rbp a = 0 :=
          le_antisymm (h a (List.mem_cons_self a t))
            (clampedScoreOf_nonneg rbp a)
        rw [List.find?_cons]
        have : (decide (clampedScoreOf rbp a =
            specMaxScore rbp (a :: t))) = true := by
          simp only [decide_eq_true_eq]
          rw [ha0, hM0]
        rw [this]
        rfl
    · rw [h2]
      unfold specWinnerBucket
      rw [if_pos hM0]
      rfl

/-- Every interesting field of `processMultiResult`, characterized by the
specification-side per-persona clamped scores: `bestScore`/`maxScore` are
the rounded maximum, `avgScore` the rounded arithmetic mean of the
unrounded clamped scores, `bucket` the threshold re-derivation over the
maximum and the winning persona's bucket, and `scoreByPreset` one
deduplicated entry per requested persona id holding its rounded score. -/
theorem processMultiResult_fields (c : Candidate)
    (rbp : List (String × PresetResult)) (pids : List String)
    (pm : List (String × String)) :
    (processMultiResult c rbp pids pm).bestScore =
        round1 (specMaxScore rbp pids) ∧
      (processMultiResult c rbp pids pm).avgScore =
        round1 ((pids.map (clampedScoreOf rbp)).sum / (pids.length : ℚ)) ∧
      (processMultiResult c rbp pids pm).bucket =
        finalBucket (specMaxScore rbp pids) (specWinnerBucket rbp pids) ∧
      (processMultiResult c rbp pids pm).bestPresetId =
        specWinnerId rbp pids ∧
      (processMultiResult c rbp pids pm).scoreByPreset =
        (jsSetOfList pids).map
          (fun pid => (pid, round1 (clampedScoreOf rbp pid))) ∧
      (processMultiResult c rbp pids pm).maxScore =
        round1 (specMaxScore rbp pids) := by
  obtain ⟨hb, hp, hk⟩ := loop_best_char rbp pids
  simp only [processMultiResult]
  refine ⟨?_, ?_, ?_, ?_, ?_, ?_⟩
  · rw [hb]
  · rw [loop_scores]
    have hsc : (initMultiState pids).scores = [] := rfl
    rw [hsc, List.nil_append]
    cases pids with
    | nil => simp [round1_eq]
    | cons a t =>
      rw [if_pos (by simp)]
      simp
  · rw [hb, hk]
  · rw [hp]
  · rw [loop_scoreByPreset]
    have hsc : (initMultiState pids).scoreByPreset = [] := rfl
    rw [hsc]
    have := foldl_jsObjSet_map
      (fun pid => round1 (clampedScoreOf rbp pid)) pids []
    simpa [jsSetOfList] using this
  · rw [hb]

theorem jsReplaceFirst_of_not_occur (s pat repl : Str)
    (h : hasOccur s pat = false) : jsReplaceFirst s pat repl = s := by
  induction s with
  | nil =>
    unfold hasOccur at h
    unfold jsReplaceFirst
    rw [if_neg]
    simp [h]
  | cons a t ih =>
    unfold hasOccur at h
    simp only [Bool.or_eq_false_iff] at h
    unfold jsReplaceFirst
    rw [if_neg (by simp [h.1]), ih h.2]

theorem firstOccurIdx_isPrefixOf (s pat : Str) (i : Nat)
    (h : firstOccurIdx s pat = some i) :
    pat.isPrefixOf (s.drop i) = true := by
  induction s generalizing i with
  | nil =>
    unfold firstOccurIdx at h
    split at h
    · next he =>
      injection h with h
      subst h
      simp_all [List.isEmpty_iff]
    · exact absurd h (by simp)
  | cons a t ih =>
    unfold firstOccurIdx at h
    split at h
    · next hp =>
      injection h with h
      subst h
      simpa using hp
    · next hp =>
      obtain ⟨j, hj, rfl⟩ := Option.map_eq_some'.mp h
      simpa using ih j hj

theorem firstOccurIdx_min (s pat : Str) (i : Nat)
    (h : firstOccurIdx s pat = some i) :
    ∀ j < i, pat.isPrefixOf (s.drop j) = false := by
  induction s generalizing i with
  | nil =>
    unfold firstOccurIdx at h
    split at h
    · injection h with h
      subst h
      omega
    · exact absurd h (by simp)
  | cons a t ih =>
    unfold firstOccurIdx at h
    split at h
    · injection h with h
      subst h
      omega
    · next hp =>
      obtain ⟨j0, hj0, rfl⟩ := Option.map_eq_some'.mp h
      intro j hj
      cases j with
      | zero =>
        simpa using Bool.not_eq_true _ ▸ (by simpa using hp)
      | succ k =>
        simpa using ih j0 hj0 k (by omega)

theorem jsReplaceFirst_eq_splice (s pat repl : Str) (i : Nat)
    (h : firstOccurIdx s pat = some i) :
    jsReplaceFirst s pat repl =
      s.take i ++ repl ++ s.drop (i + pat.length) := by
  induction s generalizing i with
  | nil =>
    unfold firstOccurIdx at h
    split at h
    · next he =>
      injection h with h
      subst h
      have : pat = [] := by simpa [List.isEmpty_iff] using he
      subst this
      simp [jsReplaceFirst]
    · exact absurd h (by simp)
  | cons a t ih =>
    unfold firstOccurIdx at h
    split at h
    · next hp =>
      injection h with h
      subst h
      unfold jsReplaceFirst
      rw [if_pos hp]
      simp
    · next hp =>
      obtain ⟨j, hj, rfl⟩ := Option.map_eq_some'.mp h
      unfold jsReplaceFirst
      rw [if_neg (by simpa using hp), ih j hj]
      have hd : (a :: t).drop (j + 1 + pat.length) =
          t.drop (j + pat.length) := by
        rw [show j + 1 + pat.length = (j + pat.length) + 1 from by omega]
        rfl
      rw [show (a :: t).take (j + 1) = a :: t.take j from rfl, hd]
      simp

/-- Extraction of the filter's postconditions from a surviving candidate. -/
theorem normFilter_eq_some {maxLen : Nat} {nh nn av : Bool}
    {banned : List Str} {combo : Combo} {c : Candidate}
    (h : normFilter maxLen nh nn banned av combo = some c) :
    c.domain = normalize combo.domain ∧
      c.template = combo.template ∧ c.sources = combo.sources ∧
      c.domain ≠ [] ∧ c.domain.length ≤ maxLen ∧
      (nh = true → c.domain.contains '-' = false) ∧
      (nn = true → c.domain.any isDigitC = false) ∧
      (av = true → UGLY_CLUSTERS c.domain = false) ∧
      (∀ b ∈ banned, b ≠ [] → hasOccur c.domain (jsToLower b) = false) := by
  simp only [normFilter] at h
  split_ifs at h with h1 h2 h3 h4 h5 h6
  injection h with h
  subst h
  simp only [List.isEmpty_iff] at h1
  refine ⟨rfl, rfl, rfl, h1, by dsimp only; omega, ?_, ?_, ?_, ?_⟩
  · intro hn
    subst hn
    simpa using h3
  · intro hn
    subst hn
    simpa using h4
  · intro hn
    subst hn
    simpa using h5
  · intro b hb hbne
    simp only [List.any_eq_true, not_exists, not_and,
      Bool.and_eq_true, Bool.not_eq_true'] at h6
    have := h6 b hb
    rcases hx : hasOccur (normalize combo.domain) (jsToLower b) with _ | _
    · rfl
    · exfalso
      rcases hy : b.isEmpty with _ | _
      · rw [hx] at this
        simp [hy] at this
      · exact hbne (List.isEmpty_iff.mp hy)

theorem mem_generateCombinations {packs : Option Packs}
    {multipliers : Option Multipliers} {templates : Option (List String)}
    {constraints : Option Constraints} {c : Candidate}
    (h : c ∈ generateCombinations packs multipliers templates constraints) :
    ∃ combo ∈ generationSet packs multipliers templates,
      normFilter (jsOrNat (constraints.bind Constraints.maxLen) 12)
        (jsNeqFalse (constraints.bind Constraints.noHyphens))
        (jsNeqFalse (constraints.bind Constraints.noNumbers))
        ((constraints.bind Constraints.banned).getD [])
        (jsNeqFalse (constraints.bind Constraints.avoidUglyClusters))
        combo = some c := by
  unfold generateCombinations at h
  exact List.mem_filterMap.mp h

theorem chunkArray_cons (a : α) (t : List α) (s : Nat) :
    chunkArray (a :: t) (s + 1) =
      (a :: t.take s) :: chunkArray (t.drop s) (s + 1) := by
  simp [chunkArray]

theorem chunkArray_join (l : List α) (s : Nat) :
    (chunkArray l (s + 1)).flatten = l := by
  cases l with
  | nil => simp [chunkArray]
  | cons a t =>
    rw [chunkArray_cons, List.flatten_cons, chunkArray_join (t.drop s) s,
      List.cons_append, List.take_append_drop]
termination_by l.length
decreasing_by
  simp only [List.length_cons, List.length_drop]
  omega

theorem chunkArray_length_le (l : List α) (s : Nat) :
    ∀ ck ∈ chunkArray l (s + 1), ck.length ≤ s + 1 := by
  cases l with
  | nil => intro ck hck; simp [chunkArray] at hck
  | cons a t =>
    intro ck hck
    rw [chunkArray_cons] at hck
    cases hck with
    | head =>
      simp only [List.length_cons, List.length_take]
      omega
    | tail _ htail => exact chunkArray_length_le (t.drop s) s ck htail
termination_by l.length
decreasing_by
  simp only [List.length_cons, List.length_drop]
  omega

theorem chunkArray_full_except_last (l : List α) (s : Nat) :
    ∀ ck ∈ (chunkArray l (s + 1)).dropLast, ck.length = s + 1 := by
  cases l with
  | nil => intro ck hck; simp [chunkArray] at hck
  | cons a t =>
    intro ck hck
    rw [chunkArray_cons] at hck
    rcases hre : chunkArray (t.drop s) (s + 1) with _ | ⟨r, rs⟩
    · rw [hre] at hck
      cases hck
    · rw [hre] at hck
      rw [List.dropLast_cons_of_ne_nil (by simp)] at hck
      cases hck with
      | head =>
        have hne : t.drop s ≠ [] := by
          intro he
          rw [he] at hre
          exact absurd hre (by simp [chunkArray])
        have hlen : s ≤ t.length := by
          by_contra hcon
          exact hne (List.drop_eq_nil_of_le (by omega))
        simp only [List.length_cons, List.length_take]
        omega
      | tail _ htail =>
        have hrec := chunkArray_full_except_last (t.drop s) s
        rw [hre] at hrec
        exact hrec ck htail
termination_by l.length
decreasing_by
  simp only [List.length_cons, List.length_drop]
  omega

theorem singleLe_trans (a b c : SingleResult) (h1 : singleLe a b = true)
    (h2 : singleLe b c = true) : singleLe a c = true := by
  simp only [singleLe, decide_eq_true_eq] at *
  exact le_trans h2 h1

theorem singleLe_total (a b : SingleResult) :
    (singleLe a b || singleLe b a) = true := by
  simp only [singleLe, Bool.or_eq_true, decide_eq_true_eq]
  exact le_total b.score a.score

theorem multiLe_eq_true_iff (a b : MultiResult) : multiLe a b = true ↔
    (b.bestScore < a.bestScore ∨
      (a.bestScore = b.bestScore ∧ b.avgScore ≤ a.avgScore)) := by
  unfold multiLe
  by_cases h : a.bestScore = b.bestScore
  · simp [h, lt_irrefl]
  · simp [h]

theorem multiLe_trans (a b c : MultiResult) (h1 : multiLe a b = true)
    (h2 : multiLe b c = true) : multiLe a c = true := by
  rw [multiLe_eq_true_iff] at h1 h2 ⊢
  rcases h1 with h1 | ⟨h1e, h1a⟩
  · rcases h2 with h2 | ⟨h2e, h2a⟩
    · exact Or.inl (lt_trans h2 h1)
    · exact Or.inl (h2e ▸ h1)
  · rcases h2 with h2 | ⟨h2e, h2a⟩
    · exact Or.inl (h1e ▸ h2)
    · exact Or.inr ⟨h1e.trans h2e, le_trans h2a h1a⟩

theorem multiLe_total (a b : MultiResult) :
    (multiLe a b || multiLe b a) = true := by
  simp only [Bool.or_eq_true, multiLe_eq_true_iff]
  rcases lt_trichotomy a.bestScore b.bestScore with h | h | h
  · exact Or.inr (Or.inl h)
  · rcases le_total b.avgScore a.avgScore with ha | ha
    · exact Or.inl (Or.inr ⟨h, ha⟩)
    · exact Or.inr (Or.inr ⟨h.symm, ha⟩)
  · exact Or.inl (Or.inl h)

/-- A stable sort's prefix of length `k`: it is sorted, together with the
dropped part it is a permutation of the input, and every kept element
precedes every dropped element under the comparator. -/
theorem take_mergeSort_partition (le : α → α → Bool)
    (htrans : ∀ a b c, le a b = true → le b c = true → le a c = true)
    (htot : ∀ a b, (le a b || le b a) = true)
    (l : List α) (k : Nat) :
    ((l.mergeSort le).take k).Pairwise (fun a b => le a b = true) ∧
      ((l.mergeSort le).take k ++ (l.mergeSort le).drop k).Perm l ∧
      ∀ x ∈ (l.mergeSort le).take k, ∀ y ∈ (l.mergeSort le).drop k,
        le x y = true := by
  have hs : (l.mergeSort le).Pairwise (fun a b => le a b = true) :=
    List.sorted_mergeSort htrans htot l
  have hsplit : (l.mergeSort le).take k ++ (l.mergeSort le).drop k =
      l.mergeSort le := List.take_append_drop k (l.mergeSort le)
  refine ⟨?_, ?_, ?_⟩
  · exact List.Pairwise.sublist (List.take_sublist k _) hs
  · rw [hsplit]
    exact List.mergeSort_perm l le
  · have := List.pairwise_append.mp (hsplit ▸ hs)
    exact this.2.2

theorem foldl_max_map_round1 (l : List ℚ) (e : ℚ) :
    (l.map round1).foldl max (round1 e) = round1 (l.foldl max e) := by
  induction l generalizing e with
  | nil => rfl
  | cons a t ih =>
    simp only [List.map_cons, List.foldl_cons]
    rw [← round1_max, ih]

/-! ## Concrete inputs used by the claim scenarios -/

/-- Word packs whose `A+B` expansion produces the normalized domain `abc`
from two different source tuples (`ab`+`c` and `a`+`bc`). -/
def packsDup : Packs :=
  { A := some [jsStr "ab", jsStr "a"], B := some [jsStr "c", jsStr "bc"] }

/-- The packs of the spec's `trustflow` scenario. -/
def packsTrust : Packs :=
  { A := some [jsStr "trust"], B := some [jsStr "flow"] }

/-- Packs generating the single candidate `catnip`. -/
def packsCat : Packs := { A := some [jsStr "cat"], B := some [jsStr "nip"] }

/-- The candidate `generateCombinations` produces from `packsCat` with the
`A+B` template and default constraints. -/
def candCatnip : Candidate := ⟨jsStr "catnip", "A+B", jsStr "A:cat, B:nip"⟩

/-- A constraint set exercising the JS falsy-zero default (`maxLen: 0`)
and an empty banned substring. -/
def cexConstraints : Constraints := { maxLen := some 0, banned := some [[]] }

/-- Two requested personas. -/
def pidsTwo : List String := ["p1", "p2"]

/-- A multi-persona oracle entry scoring `7.5` (winning persona `p1`, whose
own bucket is `bk`) and `6.0`. -/
def rbpScenario (bk : String) : List (String × PresetResult) :=
  [("p1", { score := some (15 / 2), bucket := bk }),
   ("p2", { score := some 6, bucket := "HOLD" })]

/-- A multi-persona oracle entry scoring persona `p` at `0.05` and
omitting every other persona. -/
def rbpLow : List (String × PresetResult) := [("p", { score := some (1 / 20) })]

/-- Personas `p` (reported) and `q` (omitted by the oracle). -/
def pidsPQ : List String := ["p", "q"]

/-- An oracle entry echoing a domain with an interior `.com`. -/
def oracleShop : RawScore :=
  { domain := jsStr "shop.comfort", score := some 9, bucket := "HOLD" }

/-- The candidate whose normalized domain collides with `oracleShop`'s key. -/
def candShopfort : Candidate := ⟨jsStr "shopfort", "A+B", []⟩

/-- The synthetic failure record `scoreSingleBatch` produces for
`candCatnip` on a caught error. -/
def resErr : SingleResult :=
  { domain := jsStr "catnip", score := 0, bucket := "PASS",
    reason := jsStr "Error", use_case := [], templateUsed := "A+B",
    sources := jsStr "A:cat, B:nip" }

/-- Two single-persona results with integral scores. -/
def srA : SingleResult :=
  ⟨jsStr "a", 5, "PASS", [], [], "A+B", []⟩

/-- See `srA`. -/
def srB : SingleResult :=
  ⟨jsStr "b", 3, "PASS", [], [], "A+B", []⟩

/-- The fields of `processMultiResult` on the 7.5/6.0 scenario, for either
reported bucket `bk` of the winning persona. -/
theorem scenario_fields (bk : String) :
    (processMultiResult candCatnip (rbpScenario bk) pidsTwo []).bestScore =
        15 / 2 ∧
      (processMultiResult candCatnip (rbpScenario bk) pidsTwo []).avgScore =
        34 / 5 ∧
      (processMultiResult candCatnip (rbpScenario bk) pidsTwo []).bucket =
        (if validBucket bk = "FAST-FLIP" then "FAST-FLIP" else "HOLD") := by
  obtain ⟨hbest, havg, hbuck, -, -, -⟩ :=
    processMultiResult_fields candCatnip (rbpScenario bk) pidsTwo []
  have e1 : clampedScoreOf (rbpScenario bk) "p1" = 15 / 2 := by
    show clampScore (some (15 / 2)) = 15 / 2
    norm_num [clampScore]
  have e2 : clampedScoreOf (rbpScenario bk) "p2" = 6 := by
    show clampScore (some 6) = 6
    norm_num [clampScore]
  have eM : specMaxScore (rbpScenario bk) pidsTwo = 15 / 2 := by
    simp only [specMaxScore, pidsTwo, List.map_cons, List.map_nil,
      List.foldl_cons, List.foldl_nil, e1, e2]
    norm_num
  have eW : specWinnerBucket (rbpScenario bk) pidsTwo = validBucket bk := by
    unfold specWinnerBucket
    rw [if_neg (by rw [eM]; norm_num)]
    unfold specWinnerId
    rw [eM]
    have hf : (pidsTwo.find? fun pid =>
        clampedScoreOf (rbpScenario bk) pid = 15 / 2) = some "p1" := by
      show List.find? _ ("p1" :: ["p2"]) = some "p1"
      rw [List.find?_cons]
      have hd : (decide (clampedScoreOf (rbpScenario bk) "p1" = 15 / 2)) =
          true := by
        rw [e1]
        simp
      rw [hd]
    rw [hf]
    rfl
  refine ⟨?_, ?_, ?_⟩
  · rw [hbest, eM, round1_eq]
    norm_num
  · rw [havg]
    simp only [pidsTwo, List.map_cons, List.map_nil, e1, e2]
    rw [show ([(15 : ℚ) / 2, 6].sum /
        ((["p1", "p2"] : List String).length : ℚ)) = 27 / 4 from by norm_num]
    rw [round1_eq]
    norm_num
  · rw [hbuck, eM, eW]
    unfold finalBucket
    rw [if_neg (by norm_num), if_pos (by norm_num)]

/-! ## The claims -/

/-- C1 counterexample: with packs `A = ["ab", "a"]`, `B = ["c", "bc"]`,
template `A+B` and default constraints, `generateCombinations` returns
four candidates whose domains are `abc, abbc, ac, abc` — the normalized
domain `abc` appears twice (once per source tuple), so the returned domain
strings are not pairwise unique, refuting the claim that the candidate
list contains exactly one entry per normalized domain. -/
theorem C1_dedup_counterexample :
    ((generateCombinations (some packsDup) none (some ["A+B"]) none).map
      Combo.domain = [jsStr "abc", jsStr "abbc", jsStr "ac", jsStr "abc"]) ∧
    ¬ ((generateCombinations (some packsDup) none (some ["A+B"]) none).map
      Combo.domain).Nodup := by
  decide

/-- C1 (amended): `generateCombinations` deduplicates only exact raw
candidates — the JS `Set` of serialized `(domain, template, sources)`
combos holds each distinct combo exactly once (`Nodup`), keeping every
emitted combo — and each surviving filtered candidate stems from one such
deduplicated combo; candidates with equal normalized domains arising from
different templates or source tuples are all retained, so the returned
domain strings need not be pairwise unique. -/
theorem C1_dedup_amended (packs : Option Packs)
    (multipliers : Option Multipliers) (templates : Option (List String))
    (constraints : Option Constraints) :
    (generationSet packs multipliers templates).Nodup ∧
      (∀ combo : Combo, combo ∈ generationSet packs multipliers templates ↔
        combo ∈ rawCombos packs multipliers templates) ∧
      (∀ c ∈ generateCombinations packs multipliers templates constraints,
        ∃ combo ∈ generationSet packs multipliers templates,
          normFilter (jsOrNat (constraints.bind Constraints.maxLen) 12)
            (jsNeqFalse (constraints.bind Constraints.noHyphens))
            (jsNeqFalse (constraints.bind Constraints.noNumbers))
            ((constraints.bind Constraints.banned).getD [])
            (jsNeqFalse (constraints.bind Constraints.avoidUglyClusters))
            combo = some c) :=
  ⟨nodup_jsSetOfList _, fun _ => mem_jsSetOfList _ _,
    fun _ hc => mem_generateCombinations hc⟩

/-- C2 counterexample: with packs `A = ["trust"]`, `B = ["flow"]`,
template `A+B` and default constraints, `generateCombinations` returns
zero candidates — not the claimed single candidate `trustflow` — because
`trustflow` contains the four-consonant run `stfl` and the ugly-cluster
filter is on by default. -/
theorem C2_scenario_counterexample :
    generateCombinations (some packsTrust) none (some ["A+B"]) none = [] := by
  decide

/-- C2 (amended): for packs `A = ["trust"]`, `B = ["flow"]` and template
`A+B`, the default constraints reject `trustflow` (it matches
`UGLY_CLUSTERS` via the consonant run `stfl` and `avoidUglyClusters`
defaults to true), so zero candidates are returned; with
`avoidUglyClusters = false` exactly one candidate `trustflow` is returned;
with `avoidUglyClusters = false` and `maxLen = 8` zero candidates are
returned (9 characters exceed 8). -/
theorem C2_scenario_amended :
    generateCombinations (some packsTrust) none (some ["A+B"]) none = [] ∧
      UGLY_CLUSTERS (jsStr "trustflow") = true ∧
      generateCombinations (some packsTrust) none (some ["A+B"])
        (some { avoidUglyClusters := some false }) =
        [⟨jsStr "trustflow", "A+B", jsStr "A:trust, B:flow"⟩] ∧
      generateCombinations (some packsTrust) none (some ["A+B"])
        (some { avoidUglyClusters := some false, maxLen := some 8 }) = [] := by
  decide

/-- C3 counterexample: with constraints `maxLen = 0` and `banned = [""]`,
the candidate `catnip` survives `generateCombinations` (JS `0 || 12`
replaces the falsy `maxLen` by 12, and the empty banned string is falsy
and skipped), yet its length 6 exceeds the given `maxLen = 0` and it does
contain the banned substring `""` — refuting the claim for this
constraint set. -/
theorem C3_filter_counterexample :
    (generateCombinations (some packsCat) none (some ["A+B"])
      (some cexConstraints)).map Combo.domain = [jsStr "catnip"] ∧
    ¬ ((jsStr "catnip").length ≤ 0) ∧
    hasOccur (jsStr "catnip") (jsToLower []) = true := by
  decide

/-- C3 (amended): every candidate surviving `generateCombinations` has a
non-empty normalized domain whose length is at most the effective maximum
length (the given `maxLen` when present and nonzero, else the default 12),
contains no hyphen when the effective `noHyphens` is true, no digit when
the effective `noNumbers` is true, and no non-empty banned substring
(compared after lower-casing the banned entry; the normalized domain is
already lower-case). -/
theorem C3_filter_amended (packs : Option Packs)
    (multipliers : Option Multipliers) (templates : Option (List String))
    (constraints : Option Constraints) (c : Candidate)
    (h : c ∈ generateCombinations packs multipliers templates constraints) :
    c.domain ≠ [] ∧
      c.domain.length ≤ jsOrNat (constraints.bind Constraints.maxLen) 12 ∧
      (jsNeqFalse (constraints.bind Constraints.noHyphens) = true →
        c.domain.contains '-' = false) ∧
      (jsNeqFalse (constraints.bind Constraints.noNumbers) = true →
        c.domain.any isDigitC = false) ∧
      (∀ b ∈ (constraints.bind Constraints.banned).getD [], b ≠ [] →
        hasOccur c.domain (jsToLower b) = false) := by
  obtain ⟨combo, -, hf⟩ := mem_generateCombinations h
  obtain ⟨-, -, -, hne, hlen, hhy, hdig, -, hban⟩ := normFilter_eq_some hf
  exact ⟨hne, hlen, hhy, hdig, hban⟩

/-- C3 witness: the filter postconditions at a concrete surviving
candidate (`catnip` under default constraints). -/
theorem C3_filter_witness :
    candCatnip.domain ≠ [] ∧
      candCatnip.domain.length ≤
        jsOrNat ((none : Option Constraints).bind Constraints.maxLen) 12 ∧
      (jsNeqFalse ((none : Option Constraints).bind Constraints.noHyphens) =
          true → candCatnip.domain.contains '-' = false) ∧
      (jsNeqFalse ((none : Option Constraints).bind Constraints.noNumbers) =
          true → candCatnip.domain.any isDigitC = false) ∧
      (∀ b ∈ ((none : Option Constraints).bind Constraints.banned).getD [],
        b ≠ [] → hasOccur candCatnip.domain (jsToLower b) = false) :=
  C3_filter_amended (some packsCat) none (some ["A+B"]) none candCatnip
    (by decide)

/-- C4 counterexample: for two personas scoring 7.5 and 6.0, the returned
`avgScore` is `6.8` (the mean 6.75 rounded to one decimal by
`Math.round(x*10)/10`), not the claimed `6.75`. -/
theorem C4_bucket_counterexample :
    (processMultiResult candCatnip (rbpScenario "FAST-FLIP") pidsTwo
      []).bestScore = 15 / 2 ∧
    (processMultiResult candCatnip (rbpScenario "FAST-FLIP") pidsTwo
      []).avgScore = 34 / 5 ∧
    ((34 : ℚ) / 5 ≠ 27 / 4) := by
  obtain ⟨h1, h2, -⟩ := scenario_fields "FAST-FLIP"
  exact ⟨h1, h2, by norm_num⟩

/-- C4 (amended): for every candidate processed by `processMultiResult`,
the returned bucket is FAST-FLIP when the maximum clamped persona score is
at least 8.0; when it is in [7.0, 8.0) the bucket is FAST-FLIP exactly if
the winning persona's own (enum-checked) bucket was FAST-FLIP and HOLD
otherwise; when it is in [4.0, 7.0) the bucket is HOLD; otherwise PASS.
In particular, for two personas scoring 7.5 and 6.0 the result has
`bestScore = 7.5`, `avgScore = 6.8` (6.75 rounded to one decimal), and
bucket FAST-FLIP exactly when the 7.5-scoring persona's own bucket was
FAST-FLIP, else HOLD. -/
theorem C4_bucket_amended :
    (∀ (c : Candidate) (rbp : List (String × PresetResult))
      (pids : List String) (pm : List (String × String)),
      (processMultiResult c rbp pids pm).bucket =
        (if 8 ≤ specMaxScore rbp pids then "FAST-FLIP"
         else if 7 ≤ specMaxScore rbp pids then
           (if specWinnerBucket rbp pids = "FAST-FLIP" then "FAST-FLIP"
            else "HOLD")
         else if 4 ≤ specMaxScore rbp pids then "HOLD" else "PASS")) ∧
      (processMultiResult candCatnip (rbpScenario "FAST-FLIP") pidsTwo
        []).bestScore = 15 / 2 ∧
      (processMultiResult candCatnip (rbpScenario "FAST-FLIP") pidsTwo
        []).avgScore = 34 / 5 ∧
      (processMultiResult candCatnip (rbpScenario "FAST-FLIP") pidsTwo
        []).bucket = "FAST-FLIP" ∧
      (processMultiResult candCatnip (rbpScenario "HOLD") pidsTwo
        []).bucket = "HOLD" := by
  obtain ⟨ha1, ha2, ha3⟩ := scenario_fields "FAST-FLIP"
  obtain ⟨-, -, hb3⟩ := scenario_fields "HOLD"
  refine ⟨?_, ha1, ha2, ?_, ?_⟩
  · intro c rbp pids pm
    rw [(processMultiResult_fields c rbp pids pm).2.2.1]
    rfl
  · rw [ha3]
    rfl
  · rw [hb3]
    rfl

/-- C5 counterexample: on a parse failure (malformed, unparseable oracle
response body) `scoreSingleBatch`'s catch block labels the synthetic
records with reason `Error`, not the claimed `Scoring failed` (that reason
is used for the HTTP-error branch instead). -/
theorem C5_parse_failure_counterexample :
    (scoreSingleBatch [candCatnip] OracleReply.parseFailure).map
      SingleResult.reason = [jsStr "Error"] ∧
    jsStr "Error" ≠ jsStr "Scoring failed" := by
  decide

/-- C5 (amended): on a malformed (unparseable) oracle response body for a
single-persona batch, `scoreSingleBatch` returns exactly one result per
submitted candidate — in order, none dropped, the run not aborted — each
with score 0, bucket PASS and reason `Error` (the reason `Scoring failed`
is produced by the HTTP-error branch instead). -/
theorem C5_parse_failure_amended (batch : List Candidate) :
    (scoreSingleBatch batch OracleReply.parseFailure).length =
        batch.length ∧
      (scoreSingleBatch batch OracleReply.parseFailure).map
        SingleResult.domain = batch.map Combo.domain ∧
      ∀ r ∈ scoreSingleBatch batch OracleReply.parseFailure,
        r.score = 0 ∧ r.bucket = "PASS" ∧ r.reason = jsStr "Error" ∧
          r.use_case = [] := by
  refine ⟨by simp [scoreSingleBatch], by simp [scoreSingleBatch], ?_⟩
  intro r hr
  simp only [scoreSingleBatch, List.mem_map] at hr
  obtain ⟨c, -, rfl⟩ := hr
  exact ⟨rfl, rfl, rfl, rfl⟩

/-- C6: score clamping. Every result record of `scoreSingleBatch` stores a
score in [0, 10]; every per-persona score stored by `processMultiResult`
in `scoreByPreset` is in [0, 10]; an oracle-reported score of 11 is stored
as 10; a non-numeric or absent score (`parseFloat` giving `NaN`) becomes
0. -/
theorem C6_score_clamping :
    (∀ (batch : List Candidate) (reply : OracleReply) (r : SingleResult),
      r ∈ scoreSingleBatch batch reply → 0 ≤ r.score ∧ r.score ≤ 10) ∧
      (∀ (c : Candidate) (rbp : List (String × PresetResult))
        (pids : List String) (pm : List (String × String))
        (p : String × ℚ),
        p ∈ (processMultiResult c rbp pids pm).scoreByPreset →
          0 ≤ p.2 ∧ p.2 ≤ 10) ∧
      clampScore (some 11) = 10 ∧ clampScore none = 0 := by
  refine ⟨?_, ?_, by norm_num [clampScore], by norm_num [clampScore]⟩
  · intro batch reply r hr
    cases reply with
    | notOk =>
      simp only [scoreSingleBatch, List.mem_map] at hr
      obtain ⟨c, -, rfl⟩ := hr
      norm_num
    | parseFailure =>
      simp only [scoreSingleBatch, List.mem_map] at hr
      obtain ⟨c, -, rfl⟩ := hr
      norm_num
    | scores entries =>
      simp only [scoreSingleBatch, List.mem_map] at hr
      obtain ⟨c, -, rfl⟩ := hr
      exact ⟨clampScore_nonneg _, clampScore_le_ten _⟩
  · intro c rbp pids pm p hp
    rw [(processMultiResult_fields c rbp pids pm).2.2.2.2.1] at hp
    simp only [List.mem_map] at hp
    obtain ⟨pid, -, rfl⟩ := hp
    exact ⟨round1_nonneg (clampedScoreOf_nonneg rbp pid),
      round1_le_ten (clampedScoreOf_le_ten rbp pid)⟩

/-- C7 counterexample: with personas `p` (oracle score 0.05) and `q`
(omitted), `scoreByPreset` is `{p ↦ 0.1, q ↦ 0}` but the returned
`avgScore` is `0`, while the arithmetic mean of the `scoreByPreset`
values rounded to one decimal is `0.1` — so `avgScore` is not the rounded
mean of the `scoreByPreset` values (it is the rounded mean of the
unrounded clamped scores). -/
theorem C7_aggregate_counterexample :
    (processMultiResult candCatnip rbpLow pidsPQ []).scoreByPreset =
      [("p", 1 / 10), ("q", 0)] ∧
    (processMultiResult candCatnip rbpLow pidsPQ []).avgScore = 0 ∧
    round1 (((1 : ℚ) / 10 + 0) / 2) = 1 / 10 ∧ ((0 : ℚ) ≠ 1 / 10) := by
  obtain ⟨-, havg, -, -, hsbp, -⟩ :=
    processMultiResult_fields candCatnip rbpLow pidsPQ []
  have e1 : clampedScoreOf rbpLow "p" = 1 / 20 := by
    show clampScore (some (1 / 20)) = 1 / 20
    norm_num [clampScore]
  have e2 : clampedScoreOf rbpLow "q" = 0 := by
    show clampScore none = 0
    norm_num [clampScore]
  refine ⟨?_, ?_, ?_, by norm_num⟩
  · rw [hsbp]
    have hset : jsSetOfList pidsPQ = ["p", "q"] := by decide
    rw [hset]
    simp only [List.map_cons, List.map_nil, e1, e2]
    rw [round1_eq, round1_eq]
    norm_num
  · rw [havg]
    simp only [pidsPQ, List.map_cons, List.map_nil, e1, e2]
    rw [show (([(1 : ℚ) / 20, 0].sum) /
        ((["p", "q"] : List String).length : ℚ)) = 1 / 40 from by norm_num]
    rw [round1_eq]
    norm_num
  · rw [round1_eq]
    norm_num

/-- C7 (amended): for every candidate and requested persona-id list,
`avgScore` equals the arithmetic mean of the clamped (pre-rounding)
persona scores rounded to one decimal — which can differ from the rounded
mean of the rounded `scoreByPreset` values; `bestScore` equals the
maximum of the `scoreByPreset` values; ties between personas are resolved
in favor of the earliest persona attaining the maximum (the loop compares
with strict `>`); and `scoreByPreset` holds exactly one entry per
requested persona id (in first-occurrence order), defaulting to 0 when
the oracle omits that persona. -/
theorem C7_aggregates_amended (c : Candidate)
    (rbp : List (String × PresetResult)) (pids : List String)
    (pm : List (String × String)) :
    (processMultiResult c rbp pids pm).avgScore =
        round1 ((pids.map (clampedScoreOf rbp)).sum / (pids.length : ℚ)) ∧
      (processMultiResult c rbp pids pm).bestScore =
        ((processMultiResult c rbp pids pm).scoreByPreset.map
          Prod.snd).foldl max 0 ∧
      (processMultiResult c rbp pids pm).bestPresetId =
        (pids.find? fun pid =>
          clampedScoreOf rbp pid = specMaxScore rbp pids).getD
          (pids.headD "") ∧
      ((processMultiResult c rbp pids pm).scoreByPreset.map Prod.fst) =
        jsSetOfList pids ∧
      (∀ pid ∈ pids,
        jsObjLookup (processMultiResult c rbp pids pm).scoreByPreset pid =
          some (round1 (clampedScoreOf rbp pid))) := by
  obtain ⟨hbest, havg, -, hid, hsbp, -⟩ :=
    processMultiResult_fields c rbp pids pm
  refine ⟨havg, ?_, hid, ?_, ?_⟩
  · rw [hbest, hsbp]
    have hmm : ((jsSetOfList pids).map
        (fun pid => (pid, round1 (clampedScoreOf rbp pid)))).map Prod.snd =
        ((jsSetOfList pids).map (clampedScoreOf rbp)).map round1 := by
      simp [List.map_map, Function.comp]
    rw [hmm]
    rw [show (0 : ℚ) = round1 0 from round1_zero.symm]
    rw [foldl_max_map_round1]
    unfold specMaxScore
    congr 1
    apply foldl_max_congr_mem
    intro x
    simp only [List.mem_map]
    constructor
    · rintro ⟨pid, hp, rfl⟩
      exact ⟨pid, (mem_jsSetOfList pids pid).mpr hp, rfl⟩
    · rintro ⟨pid, hp, rfl⟩
      exact ⟨pid, (mem_jsSetOfList pids pid).mp hp, rfl⟩
  · rw [hsbp, List.map_map]
    exact (List.map_congr_left fun a _ => rfl).trans (List.map_id _)
  · intro pid hp
    rw [hsbp]
    exact jsObjLookup_map_of_mem _ (jsSetOfList pids) pid
      ((mem_jsSetOfList pids pid).mpr hp)

/-- C8 counterexample: the oracle entry domain `shop.comfort` does not end
with `.com`, yet the lookup key built for it is `shopfort` — JS
`replace('.com', '')` removes the leftmost occurrence wherever it appears,
not only a suffix — and the reconciler consequently assigns this entry's
score to the candidate `shopfort`. -/
theorem C8_matching_key_counterexample :
    normKey (jsStr "shop.comfort") = jsStr "shopfort" ∧
    jsStr "shopfort" ≠ jsStr "shop.comfort" ∧
    (scoreSingleBatch [candShopfort] (.scores [oracleShop])).map
      SingleResult.score = [9] := by
  decide

/-- C8 (amended): the lookup key built for an oracle result entry equals
the entry's domain with the leftmost literal (case-sensitive) occurrence
of `.com` removed — wherever it appears, not only as a suffix — then
lower-cased; a domain with no such occurrence is only lower-cased; and
each submitted candidate is looked up by its own normalized domain
(lower-casing is the identity on normalized domains). -/
theorem C8_matching_key_amended :
    (∀ s : Str, hasOccur s (jsStr ".com") = false →
      normKey s = jsToLower s) ∧
      (∀ (s : Str) (i : Nat), firstOccurIdx s (jsStr ".com") = some i →
        (jsStr ".com").isPrefixOf (s.drop i) = true ∧
          (∀ j < i, (jsStr ".com").isPrefixOf (s.drop j) = false) ∧
          normKey s = jsToLower (s.take i ++ s.drop (i + 4))) ∧
      (∀ (packs : Option Packs) (multipliers : Option Multipliers)
        (templates : Option (List String))
        (constraints : Option Constraints) (c : Candidate),
        c ∈ generateCombinations packs multipliers templates constraints →
          jsToLower c.domain = c.domain) := by
  refine ⟨?_, ?_, ?_⟩
  · intro s h
    unfold normKey
    rw [jsReplaceFirst_of_not_occur s (jsStr ".com") [] h]
  · intro s i h
    refine ⟨firstOccurIdx_isPrefixOf s (jsStr ".com") i h,
      firstOccurIdx_min s (jsStr ".com") i h, ?_⟩
    unfold normKey
    rw [jsReplaceFirst_eq_splice s (jsStr ".com") [] i h]
    rw [show (jsStr ".com").length = 4 from rfl]
    simp
  · intro packs multipliers templates constraints c h
    obtain ⟨combo, -, hf⟩ := mem_generateCombinations h
    obtain ⟨hdom, -⟩ := normFilter_eq_some hf
    rw [hdom]
    exact jsToLower_normalize combo.domain

/-- C9 counterexample: a requested `topK` of 0 is falsy in JS, so
`Math.min(topK || 100, 300)` becomes 100 and the handler returns all
scored candidates instead of the claimed `min(topK, 300) = 0`. -/
theorem C9_truncation_counterexample :
    (rankSingleResults [srA, srB] (some 0)).length = 2 ∧
    (2 : Nat) ≠ min 0 300 := by
  constructor
  · unfold rankSingleResults
    rw [List.length_take, List.length_mergeSort]
    decide
  · decide

/-- C9 (amended): the scored list is sorted descending by `score` in
single-persona mode and descending by `bestScore` with ties broken
descending by `avgScore` in multi-persona mode, then truncated to
`min(topK, 300)` for a positive requested `topK` (an absent or zero
`topK` is first replaced by the default 100); the returned results
together with the dropped remainder permute the input, and every returned
result ranks at least as high as every dropped one under the applicable
comparator; for `topK = 5` over 20 scored candidates exactly 5 results
are returned. -/
theorem C9_ranking_amended :
    (∀ (l : List SingleResult) (k : Nat), 0 < k →
      (rankSingleResults l (some k)).length = min (min k 300) l.length) ∧
      (∀ (l : List SingleResult) (topK : Option Nat),
        (rankSingleResults l topK).Pairwise
          (fun a b => b.score ≤ a.score)) ∧
      (∀ (l : List SingleResult) (topK : Option Nat), ∃ rest,
        ((rankSingleResults l topK) ++ rest).Perm l ∧
          ∀ a ∈ rankSingleResults l topK, ∀ b ∈ rest,
            b.score ≤ a.score) ∧
      (∀ (l : List MultiResult) (k : Nat), 0 < k →
        (rankMultiResults l (some k)).length = min (min k 300) l.length) ∧
      (∀ (l : List MultiResult) (topK : Option Nat),
        (rankMultiResults l topK).Pairwise (fun a b =>
          b.bestScore < a.bestScore ∨
            (a.bestScore = b.bestScore ∧ b.avgScore ≤ a.avgScore))) ∧
      (∀ (l : List MultiResult) (topK : Option Nat), ∃ rest,
        ((rankMultiResults l topK) ++ rest).Perm l ∧
          ∀ a ∈ rankMultiResults l topK, ∀ b ∈ rest,
            b.bestScore < a.bestScore ∨
              (a.bestScore = b.bestScore ∧ b.avgScore ≤ a.avgScore)) ∧
      (∀ l : List SingleResult, l.length = 20 →
        (rankSingleResults l (some 5)).length = 5) := by
  have hlim : ∀ k : Nat, 0 < k → limitedTopK (some k) = min k 300 := by
    intro k hk
    simp only [limitedTopK, jsOrNat]
    rw [if_neg (show ¬ k = 0 from by omega)]
  refine ⟨?_, ?_, ?_, ?_, ?_, ?_, ?_⟩
  · intro l k hk
    unfold rankSingleResults
    rw [List.length_take, List.length_mergeSort, hlim k hk]
  · intro l topK
    have := (take_mergeSort_partition singleLe singleLe_trans
      singleLe_total l (limitedTopK topK)).1
    exact this.imp (fun h => by
      simpa [singleLe, decide_eq_true_eq] using h)
  · intro l topK
    obtain ⟨-, hperm, hpart⟩ := take_mergeSort_partition singleLe
      singleLe_trans singleLe_total l (limitedTopK topK)
    exact ⟨(l.mergeSort singleLe).drop (limitedTopK topK), hperm,
      fun a ha b hb => by
        simpa [singleLe, decide_eq_true_eq] using hpart a ha b hb⟩
  · intro l k hk
    unfold rankMultiResults
    rw [List.length_take, List.length_mergeSort, hlim k hk]
  · intro l topK
    have := (take_mergeSort_partition multiLe multiLe_trans
      multiLe_total l (limitedTopK topK)).1
    exact this.imp (fun h => (multiLe_eq_true_iff _ _).mp h)
  · intro l topK
    obtain ⟨-, hperm, hpart⟩ := take_mergeSort_partition multiLe
      multiLe_trans multiLe_total l (limitedTopK topK)
    exact ⟨(l.mergeSort multiLe).drop (limitedTopK topK), hperm,
      fun a ha b hb => (multiLe_eq_true_iff _ _).mp (hpart a ha b hb)⟩
  · intro l hlen
    unfold rankSingleResults
    rw [List.length_take, List.length_mergeSort, hlen]
    decide

/-- C10: for every array and every positive chunk size, the chunks
returned by `chunkArray` concatenate in order back to the original array
(so batching neither drops, duplicates, nor reorders candidates), every
chunk has length at most the given size, and every chunk except possibly
the last has length exactly the given size. -/
theorem C10_chunkArray_partition (α : Type) (l : List α) (size : Nat)
    (h : 0 < size) :
    (chunkArray l size).flatten = l ∧
      (∀ ck ∈ chunkArray l size, ck.length ≤ size) ∧
      (∀ ck ∈ (chunkArray l size).dropLast, ck.length = size) := by
  cases size with
  | zero => omega
  | succ s =>
    exact ⟨chunkArray_join l s, chunkArray_length_le l s,
      chunkArray_full_except_last l s⟩

/-- C10 witness: the partition properties at a concrete array and chunk
size. -/
theorem C10_chunkArray_witness :
    (chunkArray [1, 2, 3, 4, 5] 2).flatten = [1, 2, 3, 4, 5] ∧
      (∀ ck ∈ chunkArray [1, 2, 3, 4, 5] 2, ck.length ≤ 2) ∧
      (∀ ck ∈ (chunkArray [1, 2, 3, 4, 5] 2).dropLast, ck.length = 2) :=
  C10_chunkArray_partition Nat [1, 2, 3, 4, 5] 2 (by norm_num)

end SuperCombo
